import Mathlib

/-!
Verification of the GLCM texture-classification pipeline (`utils.py`).

The Python source is shallowly embedded below.  External library
collaborators (PIL image transforms, skimage's `graycomatrix` /
`graycoprops` / `shannon_entropy`, the filesystem, the GUI progress sink)
are modelled abstractly: image transforms are opaque functions bundled in
`ImgOps`, the GLCM is a 4-dimensional array indexed by
(level, level, distance, angle), `graycoprops` is modelled by its
documented contract of returning one scalar per (distance, angle) pair of
the fixed call `graycomatrix(img, distances=[1,2,4,8,16],
angles=[0, pi/4, pi/2, 3*pi/4], levels=256)`, and the GUI `screen` object
is modelled as an event log.  Python numeric values are modelled as exact
rationals; Python exceptions are modelled with `Except String`.
-/

namespace Birads

/-- A GLCM as produced by `graycomatrix`: a 4-dimensional array indexed by
(gray-level-i, gray-level-j, distance-index, angle-index). -/
def GLCM : Type := Nat → Nat → Nat → Nat → ℚ

/-- The slice `glcm[:, :, i, j]` of a GLCM: the 2-dimensional co-occurrence
matrix at distance index `i` and angle index `j`. -/
def GLCM.slice (glcm : GLCM) (i j : Nat) : Nat → Nat → ℚ :=
  fun a b => glcm a b i j

/-- Abstract model of the external image / texture library operations used
by `utils.py`.  `contrastOf` and `homogeneityOf` give the
(distance, angle)-indexed grids returned by `graycoprops(glcm, 'contrast')`
and `graycoprops(glcm, 'homogeneity')`; `shannonEntropy` models
`skimage.measure.shannon_entropy` on a 2-dimensional slice; `openImage`
models `PIL.Image.open`, which can fail. -/
structure ImgOps (Img : Type) where
  equalize : Img → Img
  toGray : Img → Img
  quantize : Img → Nat → Img
  resize : Img → Nat → Nat → Img
  graycomatrix : Img → GLCM
  contrastOf : GLCM → Nat → Nat → ℚ
  homogeneityOf : GLCM → Nat → Nat → ℚ
  shannonEntropy : (Nat → Nat → ℚ) → ℚ
  openImage : String → Except String Img

/-- Embedding of `glcmEntropy(glcm)`: starts from the empty list and, for
`i in range(0, 5)` and `j in range(0, 4)`, appends
`shannon_entropy(glcm[:, :, i, j])`. -/
def glcmEntropy (se : (Nat → Nat → ℚ) → ℚ) (glcm : GLCM) : List ℚ :=
  (List.range 5).foldl
    (fun entropy i =>
      (List.range 4).foldl
        (fun entropy j => entropy ++ [se (glcm.slice i j)])
        entropy)
    []

/-- Embedding of `np.hstack(grid)` for the `(5, 4)`-shaped grids returned by
`graycoprops` on the fixed 5-distance, 4-angle call: row-major
(distance-major, angle-minor) flattening into a list of 20 scalars. -/
def hstack54 (grid : Nat → Nat → ℚ) : List ℚ :=
  (List.range 5).flatMap fun d => (List.range 4).map fun a => grid d a

/-- Embedding of `computeFeatures(image)`: build the GLCM of the image with
the fixed distances `[1, 2, 4, 8, 16]` and angles
`[0, pi/4, pi/2, 3*pi/4]`, then concatenate the flattened contrast grid,
the flattened homogeneity grid and the per-slice entropies. -/
def computeFeatures {Img : Type} (lib : ImgOps Img) (image : Img) : List ℚ :=
  let glcm := lib.graycomatrix image
  let contrast := hstack54 (lib.contrastOf glcm)
  let homogeneity := hstack54 (lib.homogeneityOf glcm)
  let entropy := glcmEntropy lib.shannonEntropy glcm
  contrast ++ homogeneity ++ entropy

/-- Embedding of `featuresSizes(image)`: resize to 128, 64 and 32 squares,
compute the features of each, and concatenate them in the order
32, 64, 128. -/
def featuresSizes {Img : Type} (lib : ImgOps Img) (image : Img) : List ℚ :=
  let size128Image := lib.resize image 128 128
  let size64Image := lib.resize image 64 64
  let size32Image := lib.resize image 32 32
  let size128features := computeFeatures lib size128Image
  let size64features := computeFeatures lib size64Image
  let size32features := computeFeatures lib size32Image
  size32features ++ size64features ++ size128features

/-- Embedding of `featuresFile(image=...)` (the branch where the image is
already loaded): equalize, convert to grayscale, quantize to 16 and to 32
colors, and concatenate the multi-scale features of the two quantized
variants, 16-color block first. -/
def featuresFile {Img : Type} (lib : ImgOps Img) (image : Img) : List ℚ :=
  let equalizedImage := lib.equalize image
  let grayImage := lib.toGray equalizedImage
  let quant16Image := lib.quantize grayImage 16
  let quant32Image := lib.quantize grayImage 32
  featuresSizes lib quant16Image ++ featuresSizes lib quant32Image

/-- Embedding of `featuresFile(path)` (the branch taken by the dataset
loader): open the image at `path`, which can fail, then proceed as
`featuresFile` on the loaded image. -/
def featuresFileP {Img : Type} (lib : ImgOps Img) (path : String) :
    Except String (List ℚ) :=
  match lib.openImage path with
  | .error e => .error e
  | .ok image => .ok (featuresFile lib image)

/-! ### Dataset loader (`featuresFolder`) -/

/-- Embedding of Python's `str.endswith(suffix)`. -/
def endswith (s suffix : String) : Bool :=
  List.isSuffixOf suffix.data s.data

/-- One `os.scandir` entry: its `path` and the result of `is_file()`. -/
structure DirEntry where
  path : String
  isFile : Bool
deriving DecidableEq

/-- Abstract model of the `imgs/` folder tree: `entries i` is the list of
directory entries of `imgs/{i}/` in enumeration order. -/
structure FS where
  entries : Nat → List DirEntry

/-- The test `file.path.endswith(".png") and file.is_file()` of the loader. -/
def isPng (e : DirEntry) : Bool :=
  endswith e.path ".png" && e.isFile

/-- The loader's mutable state: the `features` and `types` lists being
built, the `imgCount` counter, and the sequences of values the `screen`
progress sink received (`progressBar['value']` assignments and
`text.set` messages). -/
structure LoadState where
  features : List (List ℚ)
  types : List Nat
  imgCount : Nat
  progressLog : List ℤ
  textLog : List String
deriving DecidableEq

/-- The progress value `int((imgCount / 400) * 100)`: Python truncation of
a nonnegative value is the floor.  Python float division is modelled by
exact rational division. -/
def progVal (n : Nat) : ℤ :=
  ⌊((n : ℚ) / 400) * 100⌋

/-- The status message `f"Generaring features...{imgCount}/400"` (typo as
in the source). -/
def statusMsg (n : Nat) : String :=
  s!"Generaring features...{n}/400"

/-- The loop body of `featuresFolder` for one accepted file: append the
feature vector and the label, bump `imgCount`, and report progress. -/
def loadStep (st : LoadState) (fv : List ℚ) (i : Nat) : LoadState :=
  let cnt := st.imgCount + 1
  { features := st.features ++ [fv]
    types := st.types ++ [i]
    imgCount := cnt
    progressLog := st.progressLog ++ [progVal cnt]
    textLog := st.textLog ++ [statusMsg cnt] }

/-- The inner loop `for file in os.scandir(f"imgs/{i}/")`: process the
entries in order, aborting on the first exception of `featuresFile`. -/
def processEntries {Img : Type} (lib : ImgOps Img) (i : Nat) :
    List DirEntry → LoadState → Except String LoadState
  | [], st => .ok st
  | e :: rest, st =>
    if isPng e then
      match featuresFileP lib e.path with
      | .error err => .error err
      | .ok fv => processEntries lib i rest (loadStep st fv i)
    else
      processEntries lib i rest st

/-- The outer loop `for i in range(1, 5)` over the class folders. -/
def processFolders {Img : Type} (lib : ImgOps Img) (fs : FS) :
    List Nat → LoadState → Except String LoadState
  | [], st => .ok st
  | i :: rest, st =>
    match processEntries lib i (fs.entries i) st with
    | .error err => .error err
    | .ok st2 => processFolders lib fs rest st2

/-- The loader's initial state: `types = []`, `features = []`,
`imgCount = 0`, nothing reported yet. -/
def initState : LoadState :=
  ⟨[], [], 0, [], []⟩

/-- Embedding of `featuresFolder(screen)`.  The Python function returns the
pair `(features, types)` of the final state; the state also carries the
progress events for the `screen` collaborator. -/
def featuresFolder {Img : Type} (lib : ImgOps Img) (fs : FS) :
    Except String LoadState :=
  processFolders lib fs [1, 2, 3, 4] initState

/-- All accepted (`.png` regular file) entries, in folder-enumeration
order: folders `1`, `2`, `3`, `4`, each in `os.scandir` order. -/
def pngEntries (fs : FS) : List DirEntry :=
  [1, 2, 3, 4].flatMap fun i => (fs.entries i).filter isPng

/-- The labels the loader emits, in order: one copy of the folder's integer
name per accepted file of that folder. -/
def labelsOf (fs : FS) : List Nat :=
  [1, 2, 3, 4].flatMap fun i =>
    List.replicate ((fs.entries i).filter isPng).length i

/-! ### Metrics (`computeMetrics`) -/

/-- Embedding of the numpy indexing `confusion[i][j]`, which raises an
`IndexError` when an index is out of bounds. -/
def getEntry (m : List (List ℚ)) (i j : Nat) : Except String ℚ :=
  match m[i]? with
  | none => .error "IndexError"
  | some row =>
    match row[j]? with
    | none => .error "IndexError"
    | some x => .ok x

/-- The loop `for i in range(0, 3): meanSensibility += confusion[i][i] / 100`,
threading the accumulator and propagating an indexing exception. -/
def sensLoop (confusion : List (List ℚ)) : List Nat → ℚ → Except String ℚ
  | [], s => .ok s
  | i :: rest, s =>
    match getEntry confusion i i with
    | .error e => .error e
    | .ok c => sensLoop confusion rest (s + c / 100)

/-- The inner loop `for j in range(0, 3): if i != j: sum += confusion[i][j] / 300`. -/
def offLoop (confusion : List (List ℚ)) (i : Nat) : List Nat → ℚ → Except String ℚ
  | [], s => .ok s
  | j :: rest, s =>
    if i ≠ j then
      match getEntry confusion i j with
      | .error e => .error e
      | .ok c => offLoop confusion i rest (s + c / 300)
    else
      offLoop confusion i rest s

/-- The outer loop `for i in range(0, 3)` of the off-diagonal sum. -/
def offOuter (confusion : List (List ℚ)) : List Nat → ℚ → Except String ℚ
  | [], s => .ok s
  | i :: rest, s =>
    match offLoop confusion i (List.range 3) s with
    | .error e => .error e
    | .ok s2 => offOuter confusion rest s2

/-- Embedding of `computeMetrics(confusion)`: the diagonal loop runs first,
then the off-diagonal double loop, and the pair
`(meanSensibility, 1 - sum)` is returned. -/
def computeMetrics (confusion : List (List ℚ)) : Except String (ℚ × ℚ) :=
  match sensLoop confusion (List.range 3) 0 with
  | .error e => .error e
  | .ok meanSensibility =>
    match offOuter confusion (List.range 3) 0 with
    | .error e => .error e
    | .ok sum => .ok (meanSensibility, 1 - sum)

/-- Total access `confusion[i][j]` with default `0`; agrees with `getEntry`
whenever the indices are in bounds. -/
def entry (m : List (List ℚ)) (i j : Nat) : ℚ :=
  (m.getD i []).getD j 0

/-- The confusion matrix is at least `3 × 3`: at least three rows, each of
the first three rows with at least three columns. -/
def wellSized3 (m : List (List ℚ)) : Prop :=
  3 ≤ m.length ∧ ∀ i < 3, 3 ≤ (m.getD i []).length

/-- Modelled from the spec's words for claim comparison: the mean per-class
sensibility read as the *average* of the first three diagonal entries each
divided by 100. -/
def meanSensibilityAvg (m : List (List ℚ)) : ℚ :=
  (entry m 0 0 / 100 + entry m 1 1 / 100 + entry m 2 2 / 100) / 3

/-- The feature vector the loader stores for an accepted entry: the value
of the successful `featuresFile` call on the entry's path. -/
def extractOf {Img : Type} (lib : ImgOps Img) (e : DirEntry) : List ℚ :=
  (featuresFileP lib e.path).toOption.getD []

instance (m : List (List ℚ)) : Decidable (wellSized3 m) := by
  unfold wellSized3
  infer_instance

/-! ### Concrete instances used as evaluation witnesses -/

/-- A trivial image library on the unit image type: every transform is the
identity, every statistic is 0, and every image opens successfully. -/
def demoLib : ImgOps Unit :=
  { equalize := id
    toGray := id
    quantize := fun u _ => u
    resize := fun u _ _ => u
    graycomatrix := fun _ => fun _ _ _ _ => 0
    contrastOf := fun _ _ _ => 0
    homogeneityOf := fun _ _ _ => 0
    shannonEntropy := fun _ => 0
    openImage := fun _ => .ok () }

/-- A single accepted directory entry. -/
def demoEntry : DirEntry := ⟨"imgs/1/a.png", true⟩

/-- A folder tree with one `.png` file under `imgs/1/`. -/
def demoFS : FS := ⟨fun i => if i = 1 then [demoEntry] else []⟩

/-- The loader state reached on `demoFS` with `demoLib`. -/
def demoSt : LoadState := ⟨[featuresFile demoLib ()], [1], 1, [progVal 1], [statusMsg 1]⟩

/-- The trivial library but with every `Image.open` failing. -/
def failLib : ImgOps Unit :=
  { demoLib with openImage := fun _ => .error "cannot open" }

/-- A folder tree with 404 `.png` files under `imgs/1/`. -/
def bigFS : FS := ⟨fun i => if i = 1 then List.replicate 404 demoEntry else []⟩

/-- The progress values reported while loading `bigFS` with `demoLib`. -/
def bigLog : List ℤ :=
  ((featuresFolder demoLib bigFS).toOption.getD initState).progressLog

/-! ### Structure of the feature pipeline -/

lemma hstack54_expl (g : Nat → Nat → ℚ) :
    hstack54 g = [g 0 0, g 0 1, g 0 2, g 0 3, g 1 0, g 1 1, g 1 2, g 1 3,
      g 2 0, g 2 1, g 2 2, g 2 3, g 3 0, g 3 1, g 3 2, g 3 3,
      g 4 0, g 4 1, g 4 2, g 4 3] := by
  simp [hstack54, List.range_succ]

lemma glcmEntropy_expl (se : (Nat → Nat → ℚ) → ℚ) (g : GLCM) :
    glcmEntropy se g = [se (g.slice 0 0), se (g.slice 0 1), se (g.slice 0 2), se (g.slice 0 3),
      se (g.slice 1 0), se (g.slice 1 1), se (g.slice 1 2), se (g.slice 1 3),
      se (g.slice 2 0), se (g.slice 2 1), se (g.slice 2 2), se (g.slice 2 3),
      se (g.slice 3 0), se (g.slice 3 1), se (g.slice 3 2), se (g.slice 3 3),
      se (g.slice 4 0), se (g.slice 4 1), se (g.slice 4 2), se (g.slice 4 3)] := by
  simp [glcmEntropy, List.range_succ]

lemma hstack54_length (g : Nat → Nat → ℚ) : (hstack54 g).length = 20 := by
  simp [hstack54_expl]

lemma glcmEntropy_length (se : (Nat → Nat → ℚ) → ℚ) (g : GLCM) :
    (glcmEntropy se g).length = 20 := by
  simp [glcmEntropy_expl]

lemma glcmEntropy_flatMap (se : (Nat → Nat → ℚ) → ℚ) (g : GLCM) :
    glcmEntropy se g =
      (List.range 5).flatMap fun i => (List.range 4).map fun j => se (g.slice i j) := by
  simp [glcmEntropy_expl, List.range_succ]

lemma computeFeatures_eq {Img : Type} (lib : ImgOps Img) (im : Img) :
    computeFeatures lib im =
      hstack54 (lib.contrastOf (lib.graycomatrix im)) ++
        hstack54 (lib.homogeneityOf (lib.graycomatrix im)) ++
        glcmEntropy lib.shannonEntropy (lib.graycomatrix im) := rfl

lemma computeFeatures_length {Img : Type} (lib : ImgOps Img) (im : Img) :
    (computeFeatures lib im).length = 60 := by
  simp [computeFeatures_eq, hstack54_length, glcmEntropy_length]

lemma computeFeatures_take20 {Img : Type} (lib : ImgOps Img) (im : Img) :
    (computeFeatures lib im).take 20 = hstack54 (lib.contrastOf (lib.graycomatrix im)) := by
  rw [computeFeatures_eq, List.append_assoc]
  exact List.take_left' (hstack54_length _)

lemma computeFeatures_drop20take20 {Img : Type} (lib : ImgOps Img) (im : Img) :
    ((computeFeatures lib im).drop 20).take 20 =
      hstack54 (lib.homogeneityOf (lib.graycomatrix im)) := by
  rw [computeFeatures_eq, List.append_assoc, List.drop_left' (hstack54_length _)]
  exact List.take_left' (hstack54_length _)

lemma computeFeatures_drop40 {Img : Type} (lib : ImgOps Img) (im : Img) :
    (computeFeatures lib im).drop 40 =
      glcmEntropy lib.shannonEntropy (lib.graycomatrix im) := by
  rw [computeFeatures_eq, List.append_assoc,
    show (40 : Nat) = 20 + 20 from rfl, ← List.drop_drop]
  rw [List.drop_left' (hstack54_length _), List.drop_left' (hstack54_length _)]

lemma featuresSizes_eq {Img : Type} (lib : ImgOps Img) (q : Img) :
    featuresSizes lib q =
      computeFeatures lib (lib.resize q 32 32) ++
        computeFeatures lib (lib.resize q 64 64) ++
        computeFeatures lib (lib.resize q 128 128) := rfl

lemma featuresSizes_length {Img : Type} (lib : ImgOps Img) (q : Img) :
    (featuresSizes lib q).length = 180 := by
  simp [featuresSizes_eq, computeFeatures_length]

lemma featuresSizes_take60 {Img : Type} (lib : ImgOps Img) (q : Img) :
    (featuresSizes lib q).take 60 = computeFeatures lib (lib.resize q 32 32) := by
  rw [featuresSizes_eq, List.append_assoc]
  exact List.take_left' (computeFeatures_length _ _)

lemma featuresSizes_drop60take60 {Img : Type} (lib : ImgOps Img) (q : Img) :
    ((featuresSizes lib q).drop 60).take 60 = computeFeatures lib (lib.resize q 64 64) := by
  rw [featuresSizes_eq, List.append_assoc, List.drop_left' (computeFeatures_length _ _)]
  exact List.take_left' (computeFeatures_length _ _)

lemma featuresSizes_drop120 {Img : Type} (lib : ImgOps Img) (q : Img) :
    (featuresSizes lib q).drop 120 = computeFeatures lib (lib.resize q 128 128) := by
  rw [featuresSizes_eq, List.append_assoc,
    show (120 : Nat) = 60 + 60 from rfl, ← List.drop_drop]
  rw [List.drop_left' (computeFeatures_length _ _), List.drop_left' (computeFeatures_length _ _)]

lemma featuresFile_eq {Img : Type} (lib : ImgOps Img) (im : Img) :
    featuresFile lib im =
      featuresSizes lib (lib.quantize (lib.toGray (lib.equalize im)) 16) ++
        featuresSizes lib (lib.quantize (lib.toGray (lib.equalize im)) 32) := rfl

lemma featuresFile_take180 {Img : Type} (lib : ImgOps Img) (im : Img) :
    (featuresFile lib im).take 180 =
      featuresSizes lib (lib.quantize (lib.toGray (lib.equalize im)) 16) := by
  rw [featuresFile_eq]
  exact List.take_left' (featuresSizes_length _ _)

lemma featuresFile_drop180 {Img : Type} (lib : ImgOps Img) (im : Img) :
    (featuresFile lib im).drop 180 =
      featuresSizes lib (lib.quantize (lib.toGray (lib.equalize im)) 32) := by
  rw [featuresFile_eq]
  exact List.drop_left' (featuresSizes_length _ _)

/-- C1: for every input image (and every behaviour of the external image
and texture library), the Feature Vector Assembler `featuresFile` returns
a feature vector of length exactly 360 = 2 quantizations × 3 scales ×
(20 contrast + 20 homogeneity + 20 entropy) scalars. -/
theorem featuresFile_always_length_360 {Img : Type} (lib : ImgOps Img) (image : Img) :
    (featuresFile lib image).length = 360 := by
  simp [featuresFile_eq, featuresSizes_length]

/-- C3: `glcmEntropy` produces exactly 20 entropy values, one Shannon
entropy per `(distance, angle)` slice `glcm[:, :, i, j]`, enumerated by
the nested loop `i ∈ [0,5)`, `j ∈ [0,4)` (distance-major, angle-minor);
and the per-scale output of `computeFeatures` is the 20 contrast values,
then the 20 homogeneity values, then these 20 entropy values, in that
order. -/
theorem glcmEntropy_per_slice_structure {Img : Type} (se : (Nat → Nat → ℚ) → ℚ)
    (g : GLCM) (lib : ImgOps Img) (im : Img) :
    glcmEntropy se g =
        ((List.range 5).flatMap fun i => (List.range 4).map fun j => se (g.slice i j)) ∧
      (glcmEntropy se g).length = 20 ∧
      (computeFeatures lib im).length = 60 ∧
      (computeFeatures lib im).take 20 = hstack54 (lib.contrastOf (lib.graycomatrix im)) ∧
      ((computeFeatures lib im).drop 20).take 20 =
        hstack54 (lib.homogeneityOf (lib.graycomatrix im)) ∧
      (computeFeatures lib im).drop 40 =
        glcmEntropy lib.shannonEntropy (lib.graycomatrix im) :=
  ⟨glcmEntropy_flatMap se g, glcmEntropy_length se g, computeFeatures_length lib im,
    computeFeatures_take20 lib im, computeFeatures_drop20take20 lib im,
    computeFeatures_drop40 lib im⟩

/-- C4: the assembled feature vector's field order is fixed: positions
0–179 hold the 16-level quantization block and positions 180–359 the
32-level block; within each quantization the scales appear in order
32×32 (offset 0), 64×64 (offset 60), 128×128 (offset 120); within each
scale the order is contrast, homogeneity, entropy; each scale contributes
exactly 60 scalars. -/
theorem featuresFile_block_order {Img : Type} (lib : ImgOps Img) (image : Img) :
    (featuresFile lib image).take 180 =
        featuresSizes lib (lib.quantize (lib.toGray (lib.equalize image)) 16) ∧
      (featuresFile lib image).drop 180 =
        featuresSizes lib (lib.quantize (lib.toGray (lib.equalize image)) 32) ∧
      (∀ q : Img, (featuresSizes lib q).take 60 = computeFeatures lib (lib.resize q 32 32) ∧
        ((featuresSizes lib q).drop 60).take 60 = computeFeatures lib (lib.resize q 64 64) ∧
        (featuresSizes lib q).drop 120 = computeFeatures lib (lib.resize q 128 128)) ∧
      (∀ im : Img, computeFeatures lib im =
          hstack54 (lib.contrastOf (lib.graycomatrix im)) ++
            hstack54 (lib.homogeneityOf (lib.graycomatrix im)) ++
            glcmEntropy lib.shannonEntropy (lib.graycomatrix im) ∧
        (computeFeatures lib im).length = 60) :=
  ⟨featuresFile_take180 lib image, featuresFile_drop180 lib image,
    fun q => ⟨featuresSizes_take60 lib q, featuresSizes_drop60take60 lib q,
      featuresSizes_drop120 lib q⟩,
    fun im => ⟨computeFeatures_eq lib im, computeFeatures_length lib im⟩⟩

/-! ### Metrics lemmas -/

lemma range3 : List.range 3 = [0, 1, 2] := rfl

lemma getEntry_eq_ok (m : List (List ℚ)) (i j : Nat)
    (hi : i < m.length) (hj : j < (m.getD i []).length) :
    getEntry m i j = .ok (entry m i j) := by
  have hmi : m[i]? = some m[i] := List.getElem?_eq_getElem hi
  have hrow : m.getD i [] = m[i] := by rw [List.getD_eq_getElem?_getD, hmi]; rfl
  have hj2 : j < m[i].length := hrow ▸ hj
  have hrj : m[i][j]? = some m[i][j] := List.getElem?_eq_getElem hj2
  simp [getEntry, entry, hmi, hrj, hrow, List.getD_eq_getElem?_getD]

lemma getEntry_ok_bounds {m : List (List ℚ)} {i j : Nat} {c : ℚ}
    (h : getEntry m i j = .ok c) :
    i < m.length ∧ j < (m.getD i []).length ∧ c = entry m i j := by
  unfold getEntry at h
  cases hmi : m[i]? with
  | none => rw [hmi] at h; simp at h
  | some row =>
    rw [hmi] at h
    simp only [] at h
    cases hrj : row[j]? with
    | none => rw [hrj] at h; simp at h
    | some x =>
      rw [hrj] at h
      simp only [Except.ok.injEq] at h
      have hi : i < m.length := by
        by_contra hc
        rw [List.getElem?_eq_none (by omega)] at hmi
        exact absurd hmi (by simp)
      have hrow : m.getD i [] = row := by
        rw [List.getD_eq_getElem?_getD, hmi]; rfl
      have hj : j < row.length := by
        by_contra hc
        rw [List.getElem?_eq_none (by omega)] at hrj
        exact absurd hrj (by simp)
      refine ⟨hi, hrow ▸ hj, ?_⟩
      rw [← h]
      simp [entry, List.getD_eq_getElem?_getD, hmi, hrj]

lemma computeMetrics_of_wellSized (m : List (List ℚ)) (h : wellSized3 m) :
    computeMetrics m =
      .ok (entry m 0 0 / 100 + entry m 1 1 / 100 + entry m 2 2 / 100,
        1 - (entry m 0 1 / 300 + entry m 0 2 / 300 + entry m 1 0 / 300 +
          entry m 1 2 / 300 + entry m 2 0 / 300 + entry m 2 1 / 300)) := by
  obtain ⟨hlen, hrows⟩ := h
  have h0 : (0:Nat) < m.length := by omega
  have h1 : (1:Nat) < m.length := by omega
  have h2 : (2:Nat) < m.length := by omega
  have r0 := hrows 0 (by norm_num)
  have r1 := hrows 1 (by norm_num)
  have r2 := hrows 2 (by norm_num)
  have e00 := getEntry_eq_ok m 0 0 h0 (by omega)
  have e01 := getEntry_eq_ok m 0 1 h0 (by omega)
  have e02 := getEntry_eq_ok m 0 2 h0 (by omega)
  have e10 := getEntry_eq_ok m 1 0 h1 (by omega)
  have e11 := getEntry_eq_ok m 1 1 h1 (by omega)
  have e12 := getEntry_eq_ok m 1 2 h1 (by omega)
  have e20 := getEntry_eq_ok m 2 0 h2 (by omega)
  have e21 := getEntry_eq_ok m 2 1 h2 (by omega)
  have e22 := getEntry_eq_ok m 2 2 h2 (by omega)
  simp only [computeMetrics, range3, sensLoop, offOuter, offLoop,
    e00, e01, e02, e10, e11, e12, e20, e21, e22]
  norm_num

lemma sensLoop_ok_mem {m : List (List ℚ)} {l : List Nat} {s r : ℚ}
    (h : sensLoop m l s = .ok r) : ∀ i ∈ l, ∃ c, getEntry m i i = .ok c := by
  induction l generalizing s with
  | nil => intro i hi; cases hi
  | cons a rest ih =>
    intro i hi
    rw [sensLoop] at h
    cases hg : getEntry m a a with
    | error e => rw [hg] at h; simp at h
    | ok c =>
      rw [hg] at h
      simp only [] at h
      rcases List.mem_cons.mp hi with rfl | hmem
      · exact ⟨c, hg⟩
      · exact ih h i hmem

lemma offLoop_ok_mem {m : List (List ℚ)} {i : Nat} {l : List Nat} {s r : ℚ}
    (h : offLoop m i l s = .ok r) : ∀ j ∈ l, i ≠ j → ∃ c, getEntry m i j = .ok c := by
  induction l generalizing s with
  | nil => intro j hj; cases hj
  | cons a rest ih =>
    intro j hj hne
    rw [offLoop] at h
    by_cases hia : i ≠ a
    · rw [if_pos hia] at h
      cases hg : getEntry m i a with
      | error e => rw [hg] at h; simp at h
      | ok c =>
        rw [hg] at h
        simp only [] at h
        rcases List.mem_cons.mp hj with rfl | hmem
        · exact ⟨c, hg⟩
        · exact ih h j hmem hne
    · rw [if_neg hia] at h
      rcases List.mem_cons.mp hj with rfl | hmem
      · exact absurd (by omega : i = j) hne
      · exact ih h j hmem hne

lemma offOuter_ok_mem {m : List (List ℚ)} {l : List Nat} {s r : ℚ}
    (h : offOuter m l s = .ok r) :
    ∀ i ∈ l, ∃ s2 s3, offLoop m i (List.range 3) s2 = .ok s3 := by
  induction l generalizing s with
  | nil => intro i hi; cases hi
  | cons a rest ih =>
    intro i hi
    rw [offOuter] at h
    cases hg : offLoop m a (List.range 3) s with
    | error e => rw [hg] at h; simp at h
    | ok s2 =>
      rw [hg] at h
      simp only [] at h
      rcases List.mem_cons.mp hi with rfl | hmem
      · exact ⟨s, s2, hg⟩
      · exact ih h i hmem

lemma computeMetrics_isOk_wellSized {m : List (List ℚ)} {v : ℚ × ℚ}
    (h : computeMetrics m = .ok v) : wellSized3 m := by
  rw [computeMetrics] at h
  cases hs : sensLoop m (List.range 3) 0 with
  | error e => rw [hs] at h; simp at h
  | ok ms =>
    rw [hs] at h
    simp only [] at h
    cases ho : offOuter m (List.range 3) 0 with
    | error e => rw [ho] at h; simp at h
    | ok sum =>
      have hdiag := sensLoop_ok_mem hs
      have houter := offOuter_ok_mem ho
      obtain ⟨c22, h22⟩ := hdiag 2 (by rw [range3]; simp)
      obtain ⟨b22a, b22b, b22c⟩ := getEntry_ok_bounds h22
      obtain ⟨s2, s3, hl0⟩ := houter 0 (by rw [range3]; simp)
      obtain ⟨c02, h02⟩ := offLoop_ok_mem hl0 2 (by rw [range3]; simp) (by omega)
      obtain ⟨b02a, b02b, _⟩ := getEntry_ok_bounds h02
      obtain ⟨t2, t3, hl1⟩ := houter 1 (by rw [range3]; simp)
      obtain ⟨c12, h12⟩ := offLoop_ok_mem hl1 2 (by rw [range3]; simp) (by omega)
      obtain ⟨b12a, b12b, _⟩ := getEntry_ok_bounds h12
      refine ⟨by omega, ?_⟩
      intro i hi
      interval_cases i
      · omega
      · omega
      · omega

lemma computeMetrics_ok_val {m : List (List ℚ)} {v : ℚ × ℚ}
    (h : computeMetrics m = .ok v) :
    v = (entry m 0 0 / 100 + entry m 1 1 / 100 + entry m 2 2 / 100,
      1 - (entry m 0 1 / 300 + entry m 0 2 / 300 + entry m 1 0 / 300 +
        entry m 1 2 / 300 + entry m 2 0 / 300 + entry m 2 1 / 300)) := by
  have hw := computeMetrics_isOk_wellSized h
  have hval := computeMetrics_of_wellSized m hw
  rw [h] at hval
  simp only [Except.ok.injEq] at hval
  exact hval

lemma computeMetrics_congr {m1 m2 : List (List ℚ)}
    (h : ∀ i < 3, ∀ j < 3, getEntry m1 i j = getEntry m2 i j) :
    computeMetrics m1 = computeMetrics m2 := by
  have h00 := h 0 (by norm_num) 0 (by norm_num)
  have h01 := h 0 (by norm_num) 1 (by norm_num)
  have h02 := h 0 (by norm_num) 2 (by norm_num)
  have h10 := h 1 (by norm_num) 0 (by norm_num)
  have h11 := h 1 (by norm_num) 1 (by norm_num)
  have h12 := h 1 (by norm_num) 2 (by norm_num)
  have h20 := h 2 (by norm_num) 0 (by norm_num)
  have h21 := h 2 (by norm_num) 1 (by norm_num)
  have h22 := h 2 (by norm_num) 2 (by norm_num)
  simp only [computeMetrics, range3, sensLoop, offOuter, offLoop,
    h00, h01, h02, h10, h11, h12, h20, h21, h22]

/-- C2 counterexample: on the confusion matrix with diagonal (100,100,100)
and zero off-diagonal entries, `computeMetrics` reports mean sensibility 3,
while the average of the diagonal entries each divided by 100 is 1, so the
reported value is not that average. -/
theorem computeMetrics_not_average :
    computeMetrics [[100, 0, 0], [0, 100, 0], [0, 0, 100]] = .ok (3, 1) ∧
      meanSensibilityAvg [[100, 0, 0], [0, 100, 0], [0, 0, 100]] = 1 ∧
      (3 : ℚ) ≠ 1 := by
  refine ⟨?_, ?_, by norm_num⟩
  · rw [computeMetrics_of_wellSized _ (by decide)]
    norm_num [entry]
  · norm_num [meanSensibilityAvg, entry]

/-- C2 (amended): for every confusion matrix on which `computeMetrics`
returns, the reported mean per-class sensibility equals the SUM (not the
average) of the matrix's first three diagonal entries each divided by the
fixed normalizer 100. -/
theorem computeMetrics_meanSensibility_sum (m : List (List ℚ)) (v : ℚ × ℚ)
    (h : computeMetrics m = .ok v) :
    v.1 = entry m 0 0 / 100 + entry m 1 1 / 100 + entry m 2 2 / 100 := by
  rw [computeMetrics_ok_val h]

/-- C2 witness: the amended claim evaluated on a concrete 4×4 confusion
matrix with diagonal (10,20,30,9): the reported mean sensibility is 3/5. -/
theorem computeMetrics_meanSensibility_sum_witness :
    ((3 : ℚ) / 5, (93 : ℚ) / 100).1 =
      entry [[10, 1, 2, 9], [3, 20, 4, 9], [5, 6, 30, 9], [9, 9, 9, 9]] 0 0 / 100 +
        entry [[10, 1, 2, 9], [3, 20, 4, 9], [5, 6, 30, 9], [9, 9, 9, 9]] 1 1 / 100 +
        entry [[10, 1, 2, 9], [3, 20, 4, 9], [5, 6, 30, 9], [9, 9, 9, 9]] 2 2 / 100 :=
  computeMetrics_meanSensibility_sum _ _
    (by rw [computeMetrics_of_wellSized _ (by decide)]; norm_num [entry])

/-- C5: for every confusion matrix on which `computeMetrics` returns, the
reported specificity equals 1 minus the sum over the off-diagonal entries
(i ≠ j, i,j ∈ [0,3)) of each entry divided by 300. -/
theorem computeMetrics_specificity (m : List (List ℚ)) (v : ℚ × ℚ)
    (h : computeMetrics m = .ok v) :
    v.2 = 1 - (entry m 0 1 / 300 + entry m 0 2 / 300 + entry m 1 0 / 300 +
      entry m 1 2 / 300 + entry m 2 0 / 300 + entry m 2 1 / 300) := by
  rw [computeMetrics_ok_val h]

/-- C5 witness: the specificity claim evaluated on a concrete 4×4
confusion matrix whose top-left off-diagonal entries sum to 21: the
reported specificity is 93/100. -/
theorem computeMetrics_specificity_witness :
    ((3 : ℚ) / 5, (93 : ℚ) / 100).2 =
      1 - (entry [[10, 1, 2, 9], [3, 20, 4, 9], [5, 6, 30, 9], [9, 9, 9, 9]] 0 1 / 300 +
        entry [[10, 1, 2, 9], [3, 20, 4, 9], [5, 6, 30, 9], [9, 9, 9, 9]] 0 2 / 300 +
        entry [[10, 1, 2, 9], [3, 20, 4, 9], [5, 6, 30, 9], [9, 9, 9, 9]] 1 0 / 300 +
        entry [[10, 1, 2, 9], [3, 20, 4, 9], [5, 6, 30, 9], [9, 9, 9, 9]] 1 2 / 300 +
        entry [[10, 1, 2, 9], [3, 20, 4, 9], [5, 6, 30, 9], [9, 9, 9, 9]] 2 0 / 300 +
        entry [[10, 1, 2, 9], [3, 20, 4, 9], [5, 6, 30, 9], [9, 9, 9, 9]] 2 1 / 300) :=
  computeMetrics_specificity _ _
    (by rw [computeMetrics_of_wellSized _ (by decide)]; norm_num [entry])

/-- C9: `computeMetrics` only accesses confusion-matrix entries at indices
(i, j) with i, j < 3; it returns a metrics pair exactly when the matrix
has at least 3 rows whose first three rows have at least 3 columns, and
for any smaller matrix it fails with an out-of-bounds index error instead
of returning metrics. -/
theorem computeMetrics_bounds_iff (m : List (List ℚ)) :
    (∃ v, computeMetrics m = .ok v) ↔ wellSized3 m := by
  constructor
  · rintro ⟨v, h⟩
    exact computeMetrics_isOk_wellSized h
  · intro h
    exact ⟨_, computeMetrics_of_wellSized m h⟩

/-- C10: any two confusion matrices that agree on their top-left 3×3
submatrix (entrywise, including out-of-bounds behaviour) receive identical
results from `computeMetrics`: entries in the fourth row or fourth column
never influence either reported metric. -/
theorem computeMetrics_top3_determines (m1 m2 : List (List ℚ))
    (h : ∀ i < 3, ∀ j < 3, getEntry m1 i j = getEntry m2 i j) :
    computeMetrics m1 = computeMetrics m2 :=
  computeMetrics_congr h

/-- C10 witness: a 3×3 matrix and a 4×4 matrix agreeing on the top-left
3×3 submatrix but with a wild fourth row and column get the same
metrics. -/
theorem computeMetrics_top3_determines_witness :
    computeMetrics [[1, 2, 3], [4, 5, 6], [7, 8, 9]] =
      computeMetrics [[1, 2, 3, 50], [4, 5, 6, 60], [7, 8, 9, 70], [80, 90, 99, 100]] :=
  computeMetrics_top3_determines _ _
    (by intro i hi j hj; interval_cases i <;> interval_cases j <;> rfl)

/-! ### Dataset loader lemmas -/

lemma processEntries_ok_spec {Img : Type} (lib : ImgOps Img) (i : Nat) :
    ∀ (l : List DirEntry) (st st' : LoadState),
      processEntries lib i l st = .ok st' →
      st'.features = st.features ++ (l.filter isPng).map (extractOf lib) ∧
      st'.types = st.types ++ List.replicate (l.filter isPng).length i ∧
      st'.imgCount = st.imgCount + (l.filter isPng).length ∧
      st'.progressLog = st.progressLog ++
        (List.range (l.filter isPng).length).map (fun k => progVal (st.imgCount + (k + 1))) ∧
      st'.textLog = st.textLog ++
        (List.range (l.filter isPng).length).map (fun k => statusMsg (st.imgCount + (k + 1))) ∧
      ∀ e ∈ l, isPng e = true → (featuresFileP lib e.path).isOk = true := by
  intro l
  induction l with
  | nil =>
    intro st st' h
    rw [processEntries] at h
    simp only [Except.ok.injEq] at h
    subst h
    simp
  | cons e rest ih =>
    intro st st' h
    rw [processEntries] at h
    by_cases hp : isPng e
    · rw [if_pos hp] at h
      cases hf : featuresFileP lib e.path with
      | error err => rw [hf] at h; simp at h
      | ok fv =>
        rw [hf] at h
        simp only [] at h
        obtain ⟨h1, h2, h3, h4, h5, h6⟩ := ih (loadStep st fv i) st' h
        have hcnt : (loadStep st fv i).imgCount = st.imgCount + 1 := rfl
        refine ⟨?_, ?_, ?_, ?_, ?_, ?_⟩
        · rw [h1]
          simp [loadStep, List.filter_cons_of_pos hp, extractOf, hf, Except.toOption]
        · rw [h2]
          simp [loadStep, List.filter_cons_of_pos hp, List.replicate_succ]
        · rw [h3, hcnt, List.filter_cons_of_pos hp]
          simp
          omega
        · rw [h4, List.filter_cons_of_pos hp, hcnt]
          simp only [loadStep, List.length_cons, List.range_succ_eq_map, List.map_cons,
            List.map_map, List.append_assoc, List.singleton_append, Nat.add_zero, Nat.zero_add]
          congr 2
          exact List.map_congr_left fun k _ => by
            simp only [Function.comp_apply]
            congr 1
            omega
        · rw [h5, List.filter_cons_of_pos hp, hcnt]
          simp only [loadStep, List.length_cons, List.range_succ_eq_map, List.map_cons,
            List.map_map, List.append_assoc, List.singleton_append, Nat.add_zero, Nat.zero_add]
          congr 2
          exact List.map_congr_left fun k _ => by
            simp only [Function.comp_apply]
            congr 1
            omega
        · intro e2 he2 hpng
          rcases List.mem_cons.mp he2 with rfl | hmem
          · rw [hf]; rfl
          · exact h6 e2 hmem hpng
    · rw [if_neg hp] at h
      obtain ⟨h1, h2, h3, h4, h5, h6⟩ := ih st st' h
      rw [List.filter_cons_of_neg (by simpa using hp)]
      refine ⟨h1, h2, h3, h4, h5, ?_⟩
      intro e2 he2 hpng
      rcases List.mem_cons.mp he2 with rfl | hmem
      · exact absurd hpng (by simpa using hp)
      · exact h6 e2 hmem hpng

lemma processFolders_ok_spec {Img : Type} (lib : ImgOps Img) (fs : FS) :
    ∀ (il : List Nat) (st st' : LoadState),
      processFolders lib fs il st = .ok st' →
      st'.features = st.features ++
        (il.flatMap fun i => (fs.entries i).filter isPng).map (extractOf lib) ∧
      st'.types = st.types ++
        (il.flatMap fun i => List.replicate ((fs.entries i).filter isPng).length i) ∧
      st'.imgCount = st.imgCount + (il.flatMap fun i => (fs.entries i).filter isPng).length ∧
      st'.progressLog = st.progressLog ++
        (List.range (il.flatMap fun i => (fs.entries i).filter isPng).length).map
          (fun k => progVal (st.imgCount + (k + 1))) ∧
      st'.textLog = st.textLog ++
        (List.range (il.flatMap fun i => (fs.entries i).filter isPng).length).map
          (fun k => statusMsg (st.imgCount + (k + 1))) ∧
      ∀ i ∈ il, ∀ e ∈ fs.entries i, isPng e = true →
        (featuresFileP lib e.path).isOk = true := by
  intro il
  induction il with
  | nil =>
    intro st st' h
    rw [processFolders] at h
    simp only [Except.ok.injEq] at h
    subst h
    simp
  | cons i rest ih =>
    intro st st' h
    rw [processFolders] at h
    cases hpe : processEntries lib i (fs.entries i) st with
    | error err => rw [hpe] at h; simp at h
    | ok st2 =>
      rw [hpe] at h
      simp only [] at h
      obtain ⟨p1, p2, p3, p4, p5, p6⟩ := processEntries_ok_spec lib i (fs.entries i) st st2 hpe
      obtain ⟨q1, q2, q3, q4, q5, q6⟩ := ih st2 st' h
      refine ⟨?_, ?_, ?_, ?_, ?_, ?_⟩
      · rw [q1, p1]
        simp [List.flatMap_cons]
      · rw [q2, p2]
        simp [List.flatMap_cons]
      · rw [q3, p3]
        simp [List.flatMap_cons]
        omega
      · rw [q4, p4, p3]
        simp only [List.flatMap_cons, List.length_append, List.range_add, List.map_append,
          List.map_map, List.append_assoc]
        congr 2
        exact List.map_congr_left fun k _ => by
          simp only [Function.comp_apply]
          congr 1
          omega
      · rw [q5, p5, p3]
        simp only [List.flatMap_cons, List.length_append, List.range_add, List.map_append,
          List.map_map, List.append_assoc]
        congr 2
        exact List.map_congr_left fun k _ => by
          simp only [Function.comp_apply]
          congr 1
          omega
      · intro i2 hi2 e he hpng
        rcases List.mem_cons.mp hi2 with rfl | hmem
        · exact p6 e he hpng
        · exact q6 i2 hmem e he hpng

lemma featuresFolder_ok_spec {Img : Type} (lib : ImgOps Img) (fs : FS) (st : LoadState)
    (h : featuresFolder lib fs = .ok st) :
    st.features = (pngEntries fs).map (extractOf lib) ∧
    st.types = labelsOf fs ∧
    st.imgCount = (pngEntries fs).length ∧
    st.progressLog = (List.range (pngEntries fs).length).map (fun k => progVal (k + 1)) ∧
    st.textLog = (List.range (pngEntries fs).length).map (fun k => statusMsg (k + 1)) ∧
    ∀ e ∈ pngEntries fs, (featuresFileP lib e.path).isOk = true := by
  obtain ⟨h1, h2, h3, h4, h5, h6⟩ :=
    processFolders_ok_spec lib fs [1, 2, 3, 4] initState st h
  refine ⟨by simpa [initState, pngEntries] using h1,
    by simpa [initState, labelsOf] using h2,
    by simpa [initState, pngEntries] using h3,
    by simpa [initState, pngEntries] using h4,
    by simpa [initState, pngEntries] using h5, ?_⟩
  intro e he
  rw [pngEntries, List.mem_flatMap] at he
  obtain ⟨i, hi, hef⟩ := he
  exact h6 i hi e (List.mem_of_mem_filter hef) (List.of_mem_filter hef)

lemma processEntries_total {Img : Type} (lib : ImgOps Img) (i : Nat)
    (hall : ∀ p, (featuresFileP lib p).isOk = true) :
    ∀ (l : List DirEntry) (st : LoadState), ∃ st', processEntries lib i l st = .ok st' := by
  intro l
  induction l with
  | nil => intro st; exact ⟨st, rfl⟩
  | cons e rest ih =>
    intro st
    rw [processEntries]
    by_cases hp : isPng e
    · rw [if_pos hp]
      cases hf : featuresFileP lib e.path with
      | error err => exact absurd (hall e.path) (by rw [hf]; simp [Except.isOk, Except.toBool])
      | ok fv => exact ih (loadStep st fv i)
    · rw [if_neg hp]
      exact ih st

lemma processFolders_total {Img : Type} (lib : ImgOps Img) (fs : FS)
    (hall : ∀ p, (featuresFileP lib p).isOk = true) :
    ∀ (il : List Nat) (st : LoadState), ∃ st', processFolders lib fs il st = .ok st' := by
  intro il
  induction il with
  | nil => intro st; exact ⟨st, rfl⟩
  | cons i rest ih =>
    intro st
    rw [processFolders]
    obtain ⟨st2, h2⟩ := processEntries_total lib i hall (fs.entries i) st
    rw [h2]
    exact ih st2

lemma featuresFolder_total {Img : Type} (lib : ImgOps Img) (fs : FS)
    (hall : ∀ p, (featuresFileP lib p).isOk = true) :
    ∃ st, featuresFolder lib fs = .ok st :=
  processFolders_total lib fs hall [1, 2, 3, 4] initState

lemma labelsOf_length (fs : FS) : (labelsOf fs).length = (pngEntries fs).length := by
  simp [labelsOf, pngEntries]

lemma labelsOf_mem {fs : FS} {t : Nat} (h : t ∈ labelsOf fs) :
    t = 1 ∨ t = 2 ∨ t = 3 ∨ t = 4 := by
  rw [labelsOf, List.mem_flatMap] at h
  obtain ⟨i, hi, ht⟩ := h
  have := List.eq_of_mem_replicate ht
  subst this
  simpa using hi

lemma progVal_nonneg (n : Nat) : 0 ≤ progVal n :=
  Int.floor_nonneg.mpr (by positivity)

lemma progVal_le_100 {n : Nat} (hn : n ≤ 400) : progVal n ≤ 100 := by
  unfold progVal
  have hle : ((n : ℚ) / 400) * 100 ≤ 100 := by
    rw [div_mul_eq_mul_div, div_le_iff₀ (by norm_num)]
    have : (n : ℚ) ≤ 400 := by exact_mod_cast hn
    nlinarith
  calc ⌊((n : ℚ) / 400) * 100⌋ ≤ ⌊(100 : ℚ)⌋ := Int.floor_mono hle
  _ = 100 := by norm_num

/-- C6: for every folder tree, when the Dataset Loader returns, it yields
exactly one (feature vector, label) pair per accepted `.png` file, in
folder-enumeration order (`imgs/1/` through `imgs/4/`, each folder in
entry order); every emitted label equals the integer name of the file's
enclosing folder, so every label is in {1, 2, 3, 4}. -/
theorem featuresFolder_yields_pairs {Img : Type} (lib : ImgOps Img) (fs : FS)
    (st : LoadState) (h : featuresFolder lib fs = .ok st) :
    st.features.length = (pngEntries fs).length ∧
      st.types.length = (pngEntries fs).length ∧
      st.features = (pngEntries fs).map (extractOf lib) ∧
      st.types = labelsOf fs ∧
      ∀ t ∈ st.types, t = 1 ∨ t = 2 ∨ t = 3 ∨ t = 4 := by
  obtain ⟨h1, h2, _, _, _, _⟩ := featuresFolder_ok_spec lib fs st h
  refine ⟨by simp [h1], by simp [h2, labelsOf_length], by simp [h1], h2, ?_⟩
  intro t ht
  exact labelsOf_mem (h2 ▸ ht)

/-- C6 witness: with the trivial library on a folder tree holding one
`.png` file under `imgs/1/`, the loader yields one pair with label 1. -/
theorem featuresFolder_yields_pairs_witness :
    demoSt.features.length = (pngEntries demoFS).length ∧
      demoSt.types.length = (pngEntries demoFS).length ∧
      demoSt.features = (pngEntries demoFS).map (extractOf demoLib) ∧
      demoSt.types = labelsOf demoFS ∧
      ∀ t ∈ demoSt.types, t = 1 ∨ t = 2 ∨ t = 3 ∨ t = 4 :=
  featuresFolder_yields_pairs demoLib demoFS demoSt rfl

/-- C7: if feature extraction fails on any accepted file of the tree, the
whole Dataset Loader call fails: no (vector, label) state is ever
returned, and the loader surfaces an error — no partial dataset, no
skipping, no retry. -/
theorem featuresFolder_fatal {Img : Type} (lib : ImgOps Img) (fs : FS)
    (h : ∃ e ∈ pngEntries fs, (featuresFileP lib e.path).isOk = false) :
    (∀ st, featuresFolder lib fs ≠ .ok st) ∧
      ∃ err, featuresFolder lib fs = .error err := by
  obtain ⟨e, he, hbad⟩ := h
  have hnot : ∀ st, featuresFolder lib fs ≠ .ok st := by
    intro st hok
    have h6 := (featuresFolder_ok_spec lib fs st hok).2.2.2.2.2
    simp [h6 e he] at hbad
  refine ⟨hnot, ?_⟩
  cases hr : featuresFolder lib fs with
  | error err => exact ⟨err, rfl⟩
  | ok st => exact absurd hr (hnot st)

/-- C7 witness: with a library whose `Image.open` always fails, loading the
one-file tree returns an error and never a result state. -/
theorem featuresFolder_fatal_witness :
    (∀ st, featuresFolder failLib demoFS ≠ .ok st) ∧
      ∃ err, featuresFolder failLib demoFS = .error err :=
  featuresFolder_fatal failLib demoFS ⟨demoEntry, by decide, rfl⟩

/-- C8 (amended): every progress value the Dataset Loader reports equals
`int((imgCount / 400) * 100)` with the expected total hardcoded to 400,
one update per processed file; all reported values lie in [0, 100]
provided at most 400 files are processed (with more files the values
exceed 100). -/
theorem featuresFolder_progress {Img : Type} (lib : ImgOps Img) (fs : FS)
    (st : LoadState) (h : featuresFolder lib fs = .ok st) :
    st.progressLog = (List.range (pngEntries fs).length).map (fun k => progVal (k + 1)) ∧
      st.progressLog.length = (pngEntries fs).length ∧
      st.progressLog.length = st.features.length ∧
      ((pngEntries fs).length ≤ 400 → ∀ v ∈ st.progressLog, 0 ≤ v ∧ v ≤ 100) := by
  obtain ⟨h1, _, _, h4, _, _⟩ := featuresFolder_ok_spec lib fs st h
  refine ⟨h4, by simp [h4], by simp [h4, h1], ?_⟩
  intro hle v hv
  rw [h4] at hv
  obtain ⟨k, hk, rfl⟩ := List.mem_map.mp hv
  have hk4 : k + 1 ≤ 400 := by
    have := List.mem_range.mp hk
    omega
  exact ⟨progVal_nonneg _, progVal_le_100 hk4⟩

/-- C8 witness: on the one-file tree the single reported value is
`progVal 1` and lies in [0, 100]. -/
theorem featuresFolder_progress_witness :
    demoSt.progressLog =
        (List.range (pngEntries demoFS).length).map (fun k => progVal (k + 1)) ∧
      demoSt.progressLog.length = (pngEntries demoFS).length ∧
      demoSt.progressLog.length = demoSt.features.length ∧
      ((pngEntries demoFS).length ≤ 400 → ∀ v ∈ demoSt.progressLog, 0 ≤ v ∧ v ≤ 100) :=
  featuresFolder_progress demoLib demoFS demoSt rfl

/-- C8 counterexample: on a folder tree with 404 `.png` files the loader
reports the progress value 101, which does not lie in [0, 100]; so the
claim that every reported value is in [0, 100] fails as stated. -/
theorem featuresFolder_progress_exceeds_100 :
    (101 : ℤ) ∈ bigLog ∧ ¬ (101 : ℤ) ≤ 100 := by
  have hall : ∀ p, (featuresFileP demoLib p).isOk = true := fun p => rfl
  obtain ⟨st, hst⟩ := featuresFolder_total demoLib bigFS hall
  have hspec := featuresFolder_ok_spec demoLib bigFS st hst
  have hfilter : (List.replicate 404 demoEntry).filter isPng = List.replicate 404 demoEntry :=
    List.filter_eq_self.mpr fun a ha => by
      rw [List.eq_of_mem_replicate ha]; decide
  have hpng : pngEntries bigFS = List.replicate 404 demoEntry := by
    rw [pngEntries]
    simp only [List.flatMap_cons, List.flatMap_nil,
      show bigFS.entries 1 = List.replicate 404 demoEntry from rfl,
      show bigFS.entries 2 = [] from rfl, show bigFS.entries 3 = [] from rfl,
      show bigFS.entries 4 = [] from rfl, hfilter, List.filter_nil,
      List.append_nil]
  have hlen : (pngEntries bigFS).length = 404 := by
    rw [hpng, List.length_replicate]
  have hmem : (101 : ℤ) ∈ st.progressLog := by
    rw [hspec.2.2.2.1, hlen]
    refine List.mem_map.mpr ⟨403, List.mem_range.mpr (by norm_num), ?_⟩
    show progVal (403 + 1) = 101
    unfold progVal
    rw [show ((403 + 1 : Nat) : ℚ) / 400 * 100 = 101 by norm_num]
    norm_num
  exact ⟨by simpa [bigLog, hst] using hmem, by decide⟩

end Birads
